import Mathlib

/-!
Verification of the dotenvguard core (`src/dotenvguard/core.py`):
a tolerant .env line parser and a validator that classifies every
template-declared variable.  Strings are modelled as `List Char`,
files as `Option (List (List Char))` (`none` = the file does not
exist, `some lines` = the file's lines after splitting).
-/

namespace DotenvGuard

/-- Python whitespace for `str.strip()` / regex `\s` (ASCII part). -/
def pyIsSpace (c : Char) : Bool :=
  c = ' ' || c = '\t' || c = '\n' || c = '\r' || c = '\x0b' || c = '\x0c'

/-- Python `str.lstrip()`. -/
def lstrip (s : List Char) : List Char := s.dropWhile pyIsSpace

/-- Python `str.rstrip()`. -/
def rstrip (s : List Char) : List Char := (s.reverse.dropWhile pyIsSpace).reverse

/-- Python `str.strip()`. -/
def strip (s : List Char) : List Char := rstrip (lstrip s)

/-- The double-quote character. -/
def quoteD : Char := Char.ofNat 34

/-- The single-quote character. -/
def quoteS : Char := Char.ofNat 39

/-- Python membership test of a character in the pair of quote characters. -/
def isQuote (c : Char) : Bool := c == quoteD || c == quoteS

/-- A regex word character (`\w`), ASCII part: letters, digits, underscore. -/
def isWordChar (c : Char) : Bool := c.isAlphanum || c = '_'

/-- The characters of the literal `optional` in the annotation regex. -/
def optionalWord : List Char := ['o', 'p', 't', 'i', 'o', 'n', 'a', 'l']

/-- Case-insensitive `List.isPrefixOf`, as regex `IGNORECASE` literal match. -/
def startsWithCI : List Char → List Char → Bool
  | [], _ => true
  | _ :: _, [] => false
  | w :: ws, c :: cs => (w.toLower == c.toLower) && startsWithCI ws cs

/-- The regex word boundary `\b` after `optional`: the following text is
empty or starts with a non-word character. -/
def wordBoundary (l : List Char) : Bool := l.head?.all (fun c => !isWordChar c)

/-- Whether the regex `#\s*optional\b` (IGNORECASE) matches at the head of
`s`: a `#`, then a (maximal) run of whitespace, then `optional`
case-insensitively, then a word boundary. -/
def matchFromHash (s : List Char) : Bool :=
  match s with
  | [] => false
  | c :: r =>
    c == '#' && (startsWithCI optionalWord (r.dropWhile pyIsSpace) &&
      wordBoundary ((r.dropWhile pyIsSpace).drop optionalWord.length))

/-- Search of the regex `#\s*optional\b` (IGNORECASE): a match at some position of `s`.
This embeds `_OPTIONAL_RE.search(raw_line)` from `parse_env_file`. -/
def optionalRe (s : List Char) : Bool :=
  match s with
  | [] => false
  | c :: rest => matchFromHash (c :: rest) || optionalRe rest

/-- The literal prefix `"export "`. -/
def exportKw : List Char := ['e', 'x', 'p', 'o', 'r', 't', ' ']

/-- Python `value.split("#")[0]`. -/
def beforeHash (v : List Char) : List Char := v.takeWhile (fun c => c != '#')

/-- The value-processing steps of `parse_env_file` (core.py lines 139-149):
trim, strip an inline comment when the value does not start with a quote,
then strip one matching layer of quotes. -/
def processValue (v : List Char) : List Char :=
  let v1 := strip v
  let v2 :=
    match v1 with
    | [] => v1
    | c :: _ => if isQuote c then v1 else strip (beforeHash v1)
  if 2 ≤ v2.length && v2.head? == v2.getLast? &&
      (match v2.head? with | some c => isQuote c | none => false) then
    (v2.drop 1).dropLast
  else
    v2

/-- The per-name parse payload (`ParsedVar` in core.py): `value` is
`none` for a valueless `KEY` line, `some []` for `KEY=`. -/
structure ParsedVar where
  value : Option (List Char)
  is_optional : Bool
deriving DecidableEq, Repr

/-- One iteration of the line loop of `parse_env_file`: `none` means the
line is skipped (blank or comment), otherwise the key/value it records. -/
def parseLine (parseAnnotations : Bool) (raw_line : List Char) : Option (List Char × ParsedVar) :=
  let line := strip raw_line
  if line = [] then none
  else if line.head? = some '#' then none
  else
    let line := if exportKw.isPrefixOf line then line.drop 7 else line
    let is_optional := if parseAnnotations then optionalRe raw_line else false
    if line.contains '=' then
      let key := strip (line.takeWhile (fun c => c != '='))
      let value := (line.dropWhile (fun c => c != '=')).drop 1
      some (key, ⟨some (processValue value), is_optional⟩)
    else
      some (strip line, ⟨none, is_optional⟩)

/-- The key/value pairs recorded by the line loop, in line order,
duplicates not yet collapsed. -/
def parseEntries (parseAnnotations : Bool) (lines : List (List Char)) :
    List (List Char × ParsedVar) :=
  lines.filterMap (parseLine parseAnnotations)

/-- Python-dict membership `k in m` on the ordered-pair representation. -/
def containsKey (m : List (List Char × ParsedVar)) (k : List Char) : Bool :=
  m.any (fun p => p.1 == k)

/-- Python-dict lookup `m[k]` on the ordered-pair representation. -/
def lookupVar (m : List (List Char × ParsedVar)) (k : List Char) : Option ParsedVar :=
  (m.find? (fun p => p.1 == k)).map (fun p => p.2)

/-- Python-dict assignment `m[k] = v`: the value of an existing key is
replaced in place (the key keeps its first-insertion position), a new
key is appended. -/
def insertLast (m : List (List Char × ParsedVar)) (k : List Char) (v : ParsedVar) :
    List (List Char × ParsedVar) :=
  if containsKey m k then m.map (fun p => if p.1 == k then (k, v) else p)
  else m ++ [(k, v)]

/-- The function `parse_env_file` (core.py lines 90-161).  A missing file (`none`)
yields the empty mapping.  When `parseAnnotations` is false every
entry's `is_optional` is `false`, matching the simple-dict branch. -/
def parse_env_file (parseAnnotations : Bool) (file : Option (List (List Char))) :
    List (List Char × ParsedVar) :=
  match file with
  | none => []
  | some lines =>
    (parseEntries parseAnnotations lines).foldl (fun m kv => insertLast m kv.1 kv.2) []

/-- The validation statuses (`Status` in core.py). -/
inductive Status where
  | OK
  | MISSING
  | EMPTY
  | EXTRA
  | OPTIONAL
  | ENV
deriving DecidableEq, Repr

/-- One row of the validation result (`EnvVar` in core.py, with its
dataclass defaults). -/
structure EnvVar where
  name : List Char
  status : Status
  has_default : Bool := false
  default_value : Option (List Char) := none
  is_optional : Bool := false
  source : Option (List Char) := none
deriving DecidableEq, Repr

/-- The provenance tag `"os.environ"`. -/
def osEnvironTag : List Char := ("os.environ".toList)

/-- The body of the template loop of `validate` (core.py lines 209-266):
classify one template-declared `name` with parse payload `parsed`
against the actual-file mapping `env_vars`.  The ambient `os.environ`
is passed in as the lookup function `environ`. -/
def classifyVar (warn_empty check_env : Bool) (environ : List Char → Option (List Char))
    (env_vars : List (List Char × ParsedVar)) (name : List Char) (parsed : ParsedVar) :
    EnvVar :=
  let example_value := parsed.value
  let is_optional := parsed.is_optional
  let has_default := match example_value with
    | some v => !v.isEmpty
    | none => false
  let default_value := if has_default then example_value else none
  match lookupVar env_vars name with
  | none =>
    if check_env && (environ name).isSome then
      { name := name, status := Status.ENV, has_default := has_default,
        default_value := default_value, source := some osEnvironTag }
    else if is_optional then
      { name := name, status := Status.OPTIONAL, has_default := has_default,
        default_value := default_value, is_optional := true }
    else
      { name := name, status := Status.MISSING, has_default := has_default,
        default_value := default_value }
  | some pv =>
    if pv.value == some [] && warn_empty then
      { name := name, status := Status.EMPTY, has_default := has_default,
        default_value := default_value, is_optional := is_optional }
    else
      { name := name, status := Status.OK, has_default := has_default,
        default_value := default_value, is_optional := is_optional }

/-- The function `validate` (core.py lines 188-273), returning the `vars` list of the
`ValidationResult`.  The template file is parsed with annotations, the
actual file without; extras are appended after the template rows when
`show_extra` is set. -/
def validate (env_file example_file : Option (List (List Char)))
    (warn_empty show_extra check_env : Bool)
    (environ : List Char → Option (List Char)) : List EnvVar :=
  let example_parsed := parse_env_file true example_file
  let env_vars := parse_env_file false env_file
  (example_parsed.map (fun p => classifyVar warn_empty check_env environ env_vars p.1 p.2)) ++
    (if show_extra then
      (env_vars.filter (fun p => !containsKey example_parsed p.1)).map
        (fun p => { name := p.1, status := Status.EXTRA })
    else [])

/-- The property `ValidationResult.ok` (core.py lines 41-46). -/
def resultOk (vars : List EnvVar) : Bool :=
  vars.all (fun v =>
    v.status == Status.OK || v.status == Status.EXTRA ||
    v.status == Status.OPTIONAL || v.status == Status.ENV)

/-- Spec-side description of the quote-stripping step, written from the
spec's words: when the value's first and last characters are matching
quote characters and its length is at least 2, exactly one layer of
quoting is stripped, with no escape processing; otherwise the value is
unchanged. -/
def specStripQuoteLayer (u : List Char) : List Char :=
  if 2 ≤ u.length && u.head? == u.getLast? &&
      (match u.head? with | some c => isQuote c | none => false) then
    (u.drop 1).dropLast
  else
    u

/-- Spec-side annotation condition, written from the spec's words: the raw
line contains, case-insensitively, a `#` character followed by optional
whitespace and then the word `optional` as a whole word. -/
def specOptionalAnnot (raw : List Char) : Prop :=
  ∃ pre ws w rest : List Char,
    raw = pre ++ '#' :: (ws ++ (w ++ rest)) ∧
    (∀ c ∈ ws, pyIsSpace c = true) ∧
    w.map Char.toLower = optionalWord ∧
    wordBoundary rest = true

/-- Membership of a key in a list of keys. -/
def keyMem (ks : List (List Char)) (k : List Char) : Bool :=
  ks.any (fun x => x == k)

/-- Spec-side helper: keep the first occurrence of every key, dropping
later duplicates (the iteration-order discipline of a Python dict). -/
def dedupFirst : List (List Char) → List (List Char)
  | [] => []
  | k :: ks => k :: dedupFirst (ks.filter (fun x => !(x == k)))
termination_by l => l.length
decreasing_by exact Nat.lt_succ_of_le (List.length_filter_le _ ks)

/-! ### Helper lemmas about `classifyVar` and `validate` -/

lemma classifyVar_name (we ce : Bool) (environ : List Char → Option (List Char))
    (m : List (List Char × ParsedVar)) (name : List Char) (parsed : ParsedVar) :
    (classifyVar we ce environ m name parsed).name = name := by
  unfold classifyVar
  cases lookupVar m name <;> dsimp only <;> split <;> first | rfl | (split <;> rfl)

lemma classifyVar_absent_env (we ce : Bool) (environ : List Char → Option (List Char))
    (m : List (List Char × ParsedVar)) (name : List Char) (parsed : ParsedVar)
    (hl : lookupVar m name = none) (hce : (ce && (environ name).isSome) = true) :
    (classifyVar we ce environ m name parsed).status = Status.ENV ∧
    (classifyVar we ce environ m name parsed).source = some osEnvironTag := by
  unfold classifyVar
  rw [hl]
  simp [hce]

lemma classifyVar_absent_opt (we ce : Bool) (environ : List Char → Option (List Char))
    (m : List (List Char × ParsedVar)) (name : List Char) (parsed : ParsedVar)
    (hl : lookupVar m name = none) (hce : (ce && (environ name).isSome) = false)
    (hopt : parsed.is_optional = true) :
    (classifyVar we ce environ m name parsed).status = Status.OPTIONAL := by
  unfold classifyVar
  rw [hl]
  simp [hce, hopt]

lemma classifyVar_absent_missing (we ce : Bool) (environ : List Char → Option (List Char))
    (m : List (List Char × ParsedVar)) (name : List Char) (parsed : ParsedVar)
    (hl : lookupVar m name = none) (hce : (ce && (environ name).isSome) = false)
    (hopt : parsed.is_optional = false) :
    (classifyVar we ce environ m name parsed).status = Status.MISSING := by
  unfold classifyVar
  rw [hl]
  simp [hce, hopt]

lemma classifyVar_present_empty (we ce : Bool) (environ : List Char → Option (List Char))
    (m : List (List Char × ParsedVar)) (name : List Char) (parsed : ParsedVar)
    (pv : ParsedVar) (hl : lookupVar m name = some pv)
    (hv : ((pv.value == some []) && we) = true) :
    (classifyVar we ce environ m name parsed).status = Status.EMPTY := by
  unfold classifyVar
  rw [hl]
  simp [hv]

lemma classifyVar_present_ok (we ce : Bool) (environ : List Char → Option (List Char))
    (m : List (List Char × ParsedVar)) (name : List Char) (parsed : ParsedVar)
    (pv : ParsedVar) (hl : lookupVar m name = some pv)
    (hv : ((pv.value == some []) && we) = false) :
    (classifyVar we ce environ m name parsed).status = Status.OK := by
  unfold classifyVar
  rw [hl]
  simp [hv]

/-- The `i`-th row of the result, for `i` inside the template block. -/
lemma validate_row (env_file example_file : Option (List (List Char)))
    (we se ce : Bool) (environ : List Char → Option (List Char)) (i : Nat)
    (name : List Char) (parsed : ParsedVar)
    (h : (parse_env_file true example_file)[i]? = some (name, parsed)) :
    (validate env_file example_file we se ce environ)[i]? =
      some (classifyVar we ce environ (parse_env_file false env_file) name parsed) := by
  have hlen : i < (parse_env_file true example_file).length := by
    rcases List.getElem?_eq_some.mp h with ⟨hlt, _⟩
    exact hlt
  unfold validate
  rw [List.getElem?_append_left (by simpa using hlen), List.getElem?_map, h]
  rfl

/-! ### Claim theorems -/

/-- C2: the derived `ok` flag of a `ValidationResult` is true if and only if
no entry has status MISSING or EMPTY; entries with any of the other four
statuses never make the result not-ok. -/
theorem resultOk_iff_no_missing_empty (vars : List EnvVar) :
    resultOk vars = true ↔
      ∀ v ∈ vars, v.status ≠ Status.MISSING ∧ v.status ≠ Status.EMPTY := by
  simp only [resultOk, List.all_eq_true, Bool.or_eq_true, beq_iff_eq]
  constructor
  · intro h v hv
    rcases h v hv with ((h1 | h1) | h1) | h1 <;> rw [h1] <;> exact ⟨by decide, by decide⟩
  · intro h v hv
    rcases h v hv with ⟨h1, h2⟩
    cases hs : v.status <;> simp_all

/-- C2 witness. -/
theorem resultOk_iff_no_missing_empty_witness :
    resultOk [{ name := ("A".toList), status := Status.MISSING }] = true ↔
      ∀ v ∈ [({ name := ("A".toList), status := Status.MISSING } : EnvVar)],
        v.status ≠ Status.MISSING ∧ v.status ≠ Status.EMPTY :=
  resultOk_iff_no_missing_empty [{ name := ("A".toList), status := Status.MISSING }]

/-- C1: for every template-declared name, `validate` assigns exactly one
status with this precedence: when the name is absent from the actual-file
mapping — FROM_ENVIRONMENT (with `source` set) if `check_env` is on and the
environment lookup succeeds, else OPTIONAL if the template marks it
optional, else MISSING; when the name is present — EMPTY if its value is
the empty string and `warn_empty` is on (regardless of optionality), else
OK (the environment fallback and the optional check never run then). -/
theorem validate_status_precedence (env_file example_file : Option (List (List Char)))
    (we se ce : Bool) (environ : List Char → Option (List Char)) (i : Nat)
    (name : List Char) (parsed : ParsedVar)
    (h : (parse_env_file true example_file)[i]? = some (name, parsed)) :
    ∃ r : EnvVar,
      (validate env_file example_file we se ce environ)[i]? = some r ∧
      r.name = name ∧
      (lookupVar (parse_env_file false env_file) name = none →
        ((ce && (environ name).isSome) = true →
            r.status = Status.ENV ∧ r.source = some osEnvironTag) ∧
        ((ce && (environ name).isSome) = false → parsed.is_optional = true →
            r.status = Status.OPTIONAL) ∧
        ((ce && (environ name).isSome) = false → parsed.is_optional = false →
            r.status = Status.MISSING)) ∧
      (∀ pv : ParsedVar, lookupVar (parse_env_file false env_file) name = some pv →
        (((pv.value == some []) && we) = true → r.status = Status.EMPTY) ∧
        (((pv.value == some []) && we) = false → r.status = Status.OK)) := by
  refine ⟨classifyVar we ce environ (parse_env_file false env_file) name parsed,
    validate_row env_file example_file we se ce environ i name parsed h,
    classifyVar_name we ce environ _ name parsed, ?_, ?_⟩
  · intro hl
    exact ⟨fun hce => classifyVar_absent_env we ce environ _ name parsed hl hce,
      fun hce hopt => classifyVar_absent_opt we ce environ _ name parsed hl hce hopt,
      fun hce hopt => classifyVar_absent_missing we ce environ _ name parsed hl hce hopt⟩
  · intro pv hl
    exact ⟨fun hv => classifyVar_present_empty we ce environ _ name parsed pv hl hv,
      fun hv => classifyVar_present_ok we ce environ _ name parsed pv hl hv⟩

/-- C1 witness. -/
theorem validate_status_precedence_witness :
    (parse_env_file true (some [("A=".toList)]))[0]? =
        some (("A".toList), (⟨some [], false⟩ : ParsedVar)) ∧
    (∃ r : EnvVar,
      (validate none (some [("A=".toList)]) true false false (fun _ => none))[0]? = some r ∧
      r.name = ("A".toList) ∧
      (lookupVar (parse_env_file false none) ("A".toList) = none →
        ((false && ((fun (_ : List Char) => (none : Option (List Char))) ("A".toList)).isSome) = true →
            r.status = Status.ENV ∧ r.source = some osEnvironTag) ∧
        ((false && ((fun (_ : List Char) => (none : Option (List Char))) ("A".toList)).isSome) = false →
            (⟨some [], false⟩ : ParsedVar).is_optional = true → r.status = Status.OPTIONAL) ∧
        ((false && ((fun (_ : List Char) => (none : Option (List Char))) ("A".toList)).isSome) = false →
            (⟨some [], false⟩ : ParsedVar).is_optional = false → r.status = Status.MISSING)) ∧
      (∀ pv : ParsedVar, lookupVar (parse_env_file false none) ("A".toList) = some pv →
        (((pv.value == some []) && true) = true → r.status = Status.EMPTY) ∧
        (((pv.value == some []) && true) = false → r.status = Status.OK))) :=
  ⟨by decide,
    validate_status_precedence none (some [("A=".toList)]) true false false
      (fun _ => none) 0 ("A".toList) ⟨some [], false⟩ (by decide)⟩

lemma classifyVar_status_ne_extra (we ce : Bool) (environ : List Char → Option (List Char))
    (m : List (List Char × ParsedVar)) (name : List Char) (parsed : ParsedVar) :
    (classifyVar we ce environ m name parsed).status ≠ Status.EXTRA := by
  unfold classifyVar
  cases lookupVar m name <;> dsimp only <;> split <;> (try split) <;> simp

lemma classifyVar_is_optional (we ce : Bool) (environ : List Char → Option (List Char))
    (m : List (List Char × ParsedVar)) (name : List Char) (parsed : ParsedVar) :
    (classifyVar we ce environ m name parsed).is_optional =
      (!((classifyVar we ce environ m name parsed).status == Status.ENV) &&
        parsed.is_optional) := by
  unfold classifyVar
  cases lookupVar m name <;> dsimp only
  · by_cases hce : (ce && (environ name).isSome) = true
    · simp [hce]
    · rw [if_neg hce]
      by_cases hopt : parsed.is_optional = true
      · rw [if_pos hopt]
        simp [hopt]
      · rw [if_neg hopt]
        simp only [Bool.not_eq_true] at hopt
        simp [hopt]
  · split <;> simp

/-- C9: with `show_extra` off the result never contains an EXTRA row; with
`show_extra` on, exactly the names of the actual-file mapping that are
absent from the template mapping are appended, after all template rows, as
EXTRA rows with `has_default` false, `is_optional` false, and no
default value or source. -/
theorem show_extra_appends_exactly (env_file example_file : Option (List (List Char)))
    (we ce : Bool) (environ : List Char → Option (List Char)) :
    (∀ v ∈ validate env_file example_file we false ce environ, v.status ≠ Status.EXTRA) ∧
    validate env_file example_file we true ce environ =
      validate env_file example_file we false ce environ ++
        ((parse_env_file false env_file).filter
            (fun p => !containsKey (parse_env_file true example_file) p.1)).map
          (fun p => { name := p.1, status := Status.EXTRA, has_default := false,
                      default_value := none, is_optional := false, source := none }) := by
  constructor
  · intro v hv
    unfold validate at hv
    simp only [if_neg (by decide : ¬ (false = true)), List.append_nil, List.mem_map] at hv
    rcases hv with ⟨p, _, rfl⟩
    exact classifyVar_status_ne_extra we ce environ _ p.1 p.2
  · unfold validate
    simp

/-- C9 witness. -/
theorem show_extra_appends_exactly_witness :
    (∀ v ∈ validate (some [("B=1".toList)]) (some [("A=".toList)]) true false false
        (fun _ => none), v.status ≠ Status.EXTRA) ∧
    validate (some [("B=1".toList)]) (some [("A=".toList)]) true true false (fun _ => none) =
      validate (some [("B=1".toList)]) (some [("A=".toList)]) true false false (fun _ => none) ++
        ((parse_env_file false (some [("B=1".toList)])).filter
            (fun p => !containsKey (parse_env_file true (some [("A=".toList)])) p.1)).map
          (fun p => { name := p.1, status := Status.EXTRA, has_default := false,
                      default_value := none, is_optional := false, source := none }) :=
  show_extra_appends_exactly (some [("B=1".toList)]) (some [("A=".toList)]) true false
    (fun _ => none)

/-- C10: a template-declared name that is present in the actual-file mapping
with an absent value (a bare `KEY` line with no `=`) is classified OK even
when `warn_empty` is on: EMPTY requires a present-but-empty-string value,
and an absent value is not the empty string. -/
theorem bare_name_present_is_ok (env_file example_file : Option (List (List Char)))
    (we se ce : Bool) (environ : List Char → Option (List Char)) (i : Nat)
    (name : List Char) (parsed pv : ParsedVar)
    (h : (parse_env_file true example_file)[i]? = some (name, parsed))
    (hl : lookupVar (parse_env_file false env_file) name = some pv)
    (hv : pv.value = none) :
    ∃ r : EnvVar,
      (validate env_file example_file we se ce environ)[i]? = some r ∧
      r.status = Status.OK := by
  refine ⟨classifyVar we ce environ (parse_env_file false env_file) name parsed,
    validate_row env_file example_file we se ce environ i name parsed h, ?_⟩
  exact classifyVar_present_ok we ce environ _ name parsed pv hl (by simp [hv])

/-- C10 witness: the actual file holds the bare line `KEY`, `warn_empty`
is on, and the row for `KEY` is OK. -/
theorem bare_name_present_is_ok_witness :
    (parse_env_file true (some [("KEY=x".toList)]))[0]? =
        some (("KEY".toList), (⟨some ("x".toList), false⟩ : ParsedVar)) ∧
    lookupVar (parse_env_file false (some [("KEY".toList)])) ("KEY".toList) =
        some (⟨none, false⟩ : ParsedVar) ∧
    (∃ r : EnvVar,
      (validate (some [("KEY".toList)]) (some [("KEY=x".toList)]) true false false
          (fun _ => none))[0]? = some r ∧
      r.status = Status.OK) :=
  ⟨by decide, by decide,
    bare_name_present_is_ok (some [("KEY".toList)]) (some [("KEY=x".toList)]) true false false
      (fun _ => none) 0 ("KEY".toList) ⟨some ("x".toList), false⟩ ⟨none, false⟩
      (by decide) (by decide) rfl⟩

/-- C5 counterexample: with a missing actual file, a template entry marked
`# optional` is classified OPTIONAL, not MISSING, so "every template-declared
name is MISSING" fails. -/
theorem missing_file_not_all_missing :
    parse_env_file false none = [] ∧
    (validate none (some [("DEBUG=true  # optional".toList)]) true false false
        (fun _ => none)).map (fun v => v.status) = [Status.OPTIONAL] ∧
    Status.OPTIONAL ≠ Status.MISSING :=
  ⟨rfl, by decide, by decide⟩

/-- C5 amended: a missing file parses to the empty mapping (not an error);
consequently, when the actual file does not exist every template-declared
name is classified MISSING, except names marked optional (OPTIONAL) and
names resolved from the environment when `check_env` is on
(FROM_ENVIRONMENT). -/
theorem missing_file_classification (example_file : Option (List (List Char)))
    (we se ce : Bool) (environ : List Char → Option (List Char)) (i : Nat)
    (name : List Char) (parsed : ParsedVar)
    (h : (parse_env_file true example_file)[i]? = some (name, parsed)) :
    (∀ pa : Bool, parse_env_file pa none = []) ∧
    (∃ r : EnvVar,
      (validate none example_file we se ce environ)[i]? = some r ∧
      r.status =
        (if (ce && (environ name).isSome) = true then Status.ENV
         else if parsed.is_optional = true then Status.OPTIONAL
         else Status.MISSING)) := by
  refine ⟨fun pa => rfl,
    classifyVar we ce environ (parse_env_file false none) name parsed,
    validate_row none example_file we se ce environ i name parsed h, ?_⟩
  have hl : lookupVar (parse_env_file false none) name = none := rfl
  by_cases hce : (ce && (environ name).isSome) = true
  · rw [if_pos hce]
    exact (classifyVar_absent_env we ce environ _ name parsed hl hce).1
  · rw [if_neg hce]
    have hce' : (ce && (environ name).isSome) = false := by
      simpa using hce
    by_cases hopt : parsed.is_optional = true
    · rw [if_pos hopt]
      exact classifyVar_absent_opt we ce environ _ name parsed hl hce' hopt
    · rw [if_neg hopt]
      exact classifyVar_absent_missing we ce environ _ name parsed hl hce'
        (by simpa using hopt)

/-- C5 amended witness. -/
theorem missing_file_classification_witness :
    (parse_env_file true (some [("A=".toList)]))[0]? =
        some (("A".toList), (⟨some [], false⟩ : ParsedVar)) ∧
    ((∀ pa : Bool, parse_env_file pa none = []) ∧
    (∃ r : EnvVar,
      (validate none (some [("A=".toList)]) true false false (fun _ => none))[0]? = some r ∧
      r.status =
        (if (false && (((fun (_ : List Char) => (none : Option (List Char))) ("A".toList)).isSome)) = true
            then Status.ENV
         else if (⟨some [], false⟩ : ParsedVar).is_optional = true then Status.OPTIONAL
         else Status.MISSING))) :=
  ⟨by decide,
    missing_file_classification (some [("A=".toList)]) true false false (fun _ => none) 0
      ("A".toList) ⟨some [], false⟩ (by decide)⟩

/-- C3 counterexample: a template entry annotated optional whose name is
absent from the actual file but found in the environment gets a
FROM_ENVIRONMENT row with `is_optional = false`, although the template's
optional flag is true. -/
theorem env_row_drops_optional_flag :
    (parse_env_file true (some [("KEY= # optional".toList)])).map
        (fun p => p.2.is_optional) = [true] ∧
    (validate none (some [("KEY= # optional".toList)]) true false true
        (fun n => if n == ("KEY".toList) then some ("v".toList) else none)).map
      (fun v => (v.status, v.is_optional)) = [(Status.ENV, false)] :=
  ⟨by decide, by decide⟩

/-- C3 amended: a row's `is_optional` mirrors the template entry's optional
flag, except that FROM_ENVIRONMENT rows always carry `is_optional = false`
regardless of the template annotation; EXTRA rows (no template counterpart)
also have `is_optional = false`. -/
theorem is_optional_mirrors_except_env (env_file example_file : Option (List (List Char)))
    (we se ce : Bool) (environ : List Char → Option (List Char)) (i : Nat)
    (name : List Char) (parsed : ParsedVar)
    (h : (parse_env_file true example_file)[i]? = some (name, parsed)) :
    (∃ r : EnvVar,
      (validate env_file example_file we se ce environ)[i]? = some r ∧
      r.is_optional = (!(r.status == Status.ENV) && parsed.is_optional)) ∧
    (∀ v ∈ validate env_file example_file we se ce environ,
      v.status = Status.EXTRA → v.is_optional = false) := by
  constructor
  · exact ⟨classifyVar we ce environ (parse_env_file false env_file) name parsed,
      validate_row env_file example_file we se ce environ i name parsed h,
      classifyVar_is_optional we ce environ _ name parsed⟩
  · intro v hv hs
    unfold validate at hv
    rcases List.mem_append.mp hv with hv | hv
    · rcases List.mem_map.mp hv with ⟨p, _, rfl⟩
      exact absurd hs (classifyVar_status_ne_extra we ce environ _ p.1 p.2)
    · split at hv
      · rcases List.mem_map.mp hv with ⟨p, _, rfl⟩
        rfl
      · exact absurd hv (List.not_mem_nil v)

/-- C3 amended witness. -/
theorem is_optional_mirrors_except_env_witness :
    (parse_env_file true (some [("KEY= # optional".toList)]))[0]? =
        some (("KEY".toList), (⟨some [], true⟩ : ParsedVar)) ∧
    ((∃ r : EnvVar,
      (validate none (some [("KEY= # optional".toList)]) true false true
          (fun n => if n == ("KEY".toList) then some ("v".toList) else none))[0]? = some r ∧
      r.is_optional = (!(r.status == Status.ENV) && (⟨some [], true⟩ : ParsedVar).is_optional)) ∧
    (∀ v ∈ validate none (some [("KEY= # optional".toList)]) true false true
        (fun n => if n == ("KEY".toList) then some ("v".toList) else none),
      v.status = Status.EXTRA → v.is_optional = false)) :=
  ⟨by decide,
    is_optional_mirrors_except_env none (some [("KEY= # optional".toList)]) true false true
      (fun n => if n == ("KEY".toList) then some ("v".toList) else none) 0
      ("KEY".toList) ⟨some [], true⟩ (by decide)⟩

/-! ### Parser key lemmas -/

lemma mem_lstrip {c : Char} {l : List Char} (h : c ∈ lstrip l) : c ∈ l :=
  (List.dropWhile_sublist pyIsSpace).mem h

lemma mem_rstrip {c : Char} {l : List Char} (h : c ∈ rstrip l) : c ∈ l := by
  unfold rstrip at h
  rw [List.mem_reverse] at h
  have := (List.dropWhile_sublist pyIsSpace).mem h
  rwa [List.mem_reverse] at this

lemma mem_strip {c : Char} {l : List Char} (h : c ∈ strip l) : c ∈ l :=
  mem_lstrip (mem_rstrip h)

lemma parseLine_key_no_eq (pa : Bool) (raw : List Char) (k : List Char) (pv : ParsedVar)
    (h : parseLine pa raw = some (k, pv)) : '=' ∉ k := by
  simp only [parseLine] at h
  by_cases h1 : strip raw = []
  · rw [if_pos h1] at h
    exact absurd h (by simp)
  · rw [if_neg h1] at h
    by_cases h2 : (strip raw).head? = some '#'
    · rw [if_pos h2] at h
      exact absurd h (by simp)
    · rw [if_neg h2] at h
      by_cases h3 : ((if exportKw.isPrefixOf (strip raw) = true
          then List.drop 7 (strip raw) else strip raw).contains '=') = true
      · rw [if_pos h3] at h
        injection h with h'
        have hfst := congrArg Prod.fst h'
        dsimp only at hfst
        intro hmem
        rw [← hfst] at hmem
        have := List.mem_takeWhile_imp (mem_strip hmem)
        simp at this
      · rw [if_neg h3] at h
        injection h with h'
        have hfst := congrArg Prod.fst h'
        dsimp only at hfst
        intro hmem
        rw [← hfst] at hmem
        have hmem' := mem_strip hmem
        exact h3 (by
          rw [List.contains_eq_any_beq, List.any_eq_true]
          exact ⟨'=', hmem', by simp⟩)

lemma mem_insertLast (m : List (List Char × ParsedVar)) (k : List Char) (v : ParsedVar)
    (p : List Char × ParsedVar) (hp : p ∈ insertLast m k v) : p = (k, v) ∨ p ∈ m := by
  unfold insertLast at hp
  split at hp
  · rcases List.mem_map.mp hp with ⟨q, hq, hqe⟩
    by_cases hk : (q.1 == k) = true
    · rw [if_pos hk] at hqe
      exact Or.inl hqe.symm
    · rw [if_neg hk] at hqe
      exact Or.inr (hqe ▸ hq)
  · rcases List.mem_append.mp hp with h | h
    · exact Or.inr h
    · exact Or.inl (by simpa using h)

lemma key_of_mem_fold (entries : List (List Char × ParsedVar)) :
    ∀ (acc : List (List Char × ParsedVar)) (p : List Char × ParsedVar),
      p ∈ entries.foldl (fun m kv => insertLast m kv.1 kv.2) acc →
      p ∈ acc ∨ ∃ e ∈ entries, p.1 = e.1 := by
  induction entries with
  | nil =>
    intro acc p hp
    exact Or.inl hp
  | cons e rest ih =>
    intro acc p hp
    rcases ih _ p hp with h | ⟨e', he', hk⟩
    · rcases mem_insertLast _ _ _ _ h with rfl | h
      · exact Or.inr ⟨e, List.mem_cons_self e rest, rfl⟩
      · exact Or.inl h
    · exact Or.inr ⟨e', List.mem_cons_of_mem e he', hk⟩

/-- C4 counterexample: the line `=value` produces an entry whose name is the
empty string. -/
theorem parse_empty_name_counterexample :
    parse_env_file false (some [("=value".toList)]) =
      [([], ⟨some ("value".toList), false⟩)] ∧
    ∃ p ∈ parse_env_file false (some [("=value".toList)]), p.1 = [] :=
  ⟨by decide, ([], ⟨some ("value".toList), false⟩), by decide, rfl⟩

/-- C4 amended: entry names are not guaranteed non-empty (the line `=value`
yields the empty name); what holds is that every entry's name — the
stripped text left of the first `=`, or the whole stripped line — never
contains an `=` character. -/
theorem parse_key_no_equals (pa : Bool) (file : Option (List (List Char)))
    (p : List Char × ParsedVar) (hp : p ∈ parse_env_file pa file) :
    '=' ∉ p.1 := by
  cases file with
  | none => exact absurd hp (by simp [parse_env_file])
  | some lines =>
    unfold parse_env_file at hp
    rcases key_of_mem_fold _ [] p hp with h | ⟨e, he, hk⟩
    · exact absurd h (List.not_mem_nil p)
    · rw [hk]
      unfold parseEntries at he
      rcases List.mem_filterMap.mp he with ⟨raw, _, hline⟩
      exact parseLine_key_no_eq pa raw e.1 e.2 (by simpa using hline)

/-- C4 amended witness. -/
theorem parse_key_no_equals_witness :
    ((("A".toList), (⟨some ("1".toList), false⟩ : ParsedVar)) ∈
        parse_env_file false (some [("A=1".toList)])) ∧
    '=' ∉ ("A".toList) :=
  ⟨by decide,
    parse_key_no_equals false (some [("A=1".toList)])
      (("A".toList), ⟨some ("1".toList), false⟩) (by decide)⟩


/-- C7: after splitting on the first `=`, when the trimmed value does not
start with a quote, everything from the first `#` onward is stripped and
the result trimmed again before the quote-layer step; when it does start
with a quote, comment-stripping is suppressed and only the quote-layer
step applies; hence `KEY="value # not a comment"` parses to the value
`value # not a comment`. -/
theorem value_comment_and_quote_stripping :
    (∀ (v : List Char) (c : Char), (strip v).head? = some c → isQuote c = false →
        processValue v = specStripQuoteLayer (strip (beforeHash (strip v)))) ∧
    (∀ (v : List Char) (c : Char), (strip v).head? = some c → isQuote c = true →
        processValue v = specStripQuoteLayer (strip v)) ∧
    parse_env_file false (some [(("KEY=" ++ "\"value # not a comment\"").toList)]) =
      [(("KEY".toList), ⟨some ("value # not a comment".toList), false⟩)] := by
  refine ⟨?_, ?_, by decide⟩
  · intro v c h hq
    cases hv : strip v with
    | nil =>
      rw [hv] at h
      exact absurd h (by simp)
    | cons a rest =>
      have ha : a = c := by
        rw [hv] at h
        simpa using h
      subst ha
      simp [processValue, specStripQuoteLayer, hv, hq]
  · intro v c h hq
    cases hv : strip v with
    | nil =>
      rw [hv] at h
      exact absurd h (by simp)
    | cons a rest =>
      have ha : a = c := by
        rw [hv] at h
        simpa using h
      subst ha
      simp [processValue, specStripQuoteLayer, hv, hq]

/-- C7 witness: a concrete unquoted value with an inline comment. -/
theorem value_comment_and_quote_stripping_witness :
    (strip ("x # y".toList)).head? = some 'x' ∧ isQuote 'x' = false ∧
    processValue ("x # y".toList) =
      specStripQuoteLayer (strip (beforeHash (strip ("x # y".toList)))) :=
  ⟨by decide, by decide,
    value_comment_and_quote_stripping.1 ("x # y".toList) 'x' (by decide) (by decide)⟩

/-! ### Characterization of the annotation regex -/

lemma startsWithCI_iff (w s : List Char) :
    startsWithCI w s = true ↔
      w.length ≤ s.length ∧
        (s.take w.length).map Char.toLower = w.map Char.toLower := by
  induction w generalizing s with
  | nil => simp [startsWithCI]
  | cons a as ih =>
    cases s with
    | nil => simp [startsWithCI]
    | cons b bs =>
      simp only [startsWithCI, Bool.and_eq_true, beq_iff_eq, ih, List.length_cons,
        Nat.succ_le_succ_iff, List.take_succ_cons, List.map_cons, List.cons.injEq]
      constructor
      · rintro ⟨h1, h2, h3⟩
        exact ⟨h2, h1.symm, h3⟩
      · rintro ⟨h1, h2, h3⟩
        exact ⟨h2.symm, h1, h3⟩

lemma map_toLower_optionalWord : optionalWord.map Char.toLower = optionalWord := by decide

lemma dropWhile_append_all {p : Char → Bool} (ws l : List Char)
    (h : ∀ c ∈ ws, p c = true) : (ws ++ l).dropWhile p = l.dropWhile p := by
  induction ws with
  | nil => rfl
  | cons a as ih =>
    have ha : p a = true := h a (List.mem_cons_self a as)
    simp only [List.cons_append, List.dropWhile_cons, ha, if_true]
    exact ih (fun c hc => h c (List.mem_cons_of_mem a hc))

lemma pyIsSpace_false_of_toLower_o {c : Char} (h : c.toLower = 'o') :
    pyIsSpace c = false := by
  cases hb : pyIsSpace c
  · rfl
  · exfalso
    have hd : ((((c = ' ' ∨ c = '\t') ∨ c = '\n') ∨ c = '\r') ∨ c = '\x0b') ∨
        c = '\x0c' := by
      simpa [pyIsSpace] using hb
    rcases hd with ((((rfl | rfl) | rfl) | rfl) | rfl) | rfl <;> exact absurd h (by decide)

lemma matchFromHash_iff (s : List Char) :
    matchFromHash s = true ↔
      ∃ ws w rest : List Char,
        s = '#' :: (ws ++ (w ++ rest)) ∧
        (∀ c ∈ ws, pyIsSpace c = true) ∧
        w.map Char.toLower = optionalWord ∧
        wordBoundary rest = true := by
  cases s with
  | nil =>
    constructor
    · intro h
      exact absurd h (by simp [matchFromHash])
    · rintro ⟨ws, w, rest, heq, -, -, -⟩
      exact absurd heq (by simp)
  | cons c r =>
    simp only [matchFromHash, Bool.and_eq_true, beq_iff_eq]
    constructor
    · rintro ⟨rfl, hsw, hb⟩
      rcases (startsWithCI_iff _ _).mp hsw with ⟨hlen, hmap⟩
      refine ⟨r.takeWhile pyIsSpace, (r.dropWhile pyIsSpace).take optionalWord.length,
        (r.dropWhile pyIsSpace).drop optionalWord.length, ?_, ?_, ?_, hb⟩
      · rw [List.take_append_drop, List.takeWhile_append_dropWhile]
      · exact fun c hc => List.mem_takeWhile_imp hc
      · rw [hmap, map_toLower_optionalWord]
    · rintro ⟨ws, w, rest, heq, hws, hw, hb⟩
      injection heq with hc hr
      have hwlen : w.length = optionalWord.length := by
        have := congrArg List.length hw
        simpa using this
      have hwne : w ≠ [] := by
        intro hnil
        rw [hnil] at hwlen
        exact absurd hwlen (by decide)
      obtain ⟨w0, wrest, rfl⟩ := List.exists_cons_of_ne_nil hwne
      have hw0 : w0.toLower = 'o' := by
        have := congrArg List.head? hw
        simpa [optionalWord] using this
      have hdrop : r.dropWhile pyIsSpace = (w0 :: wrest) ++ rest := by
        rw [hr, dropWhile_append_all ws _ hws, List.cons_append, List.dropWhile_cons]
        simp [pyIsSpace_false_of_toLower_o hw0]
      refine ⟨hc, ?_, ?_⟩
      · apply (startsWithCI_iff _ _).mpr
        refine ⟨?_, ?_⟩
        · rw [hdrop, ← hwlen]
          simp
        · rw [hdrop, ← hwlen, List.take_left, hw, map_toLower_optionalWord]
      · rw [hdrop, ← hwlen, List.drop_left]
        exact hb

lemma optionalRe_iff (s : List Char) :
    optionalRe s = true ↔
      ∃ pre suf : List Char, s = pre ++ suf ∧ matchFromHash suf = true := by
  induction s with
  | nil =>
    constructor
    · intro h
      exact absurd h (by simp [optionalRe])
    · rintro ⟨pre, suf, heq, hm⟩
      rcases List.append_eq_nil.mp heq.symm with ⟨rfl, rfl⟩
      exact absurd hm (by simp [matchFromHash])
  | cons c r ih =>
    constructor
    · intro h
      simp only [optionalRe, Bool.or_eq_true] at h
      rcases h with h | h
      · exact ⟨[], c :: r, rfl, h⟩
      · rcases ih.mp h with ⟨pre, suf, heq, hm⟩
        exact ⟨c :: pre, suf, by rw [List.cons_append, ← heq], hm⟩
    · rintro ⟨pre, suf, heq, hm⟩
      simp only [optionalRe, Bool.or_eq_true]
      cases pre with
      | nil =>
        left
        simp only [List.nil_append] at heq
        rw [heq]
        exact hm
      | cons p ps =>
        right
        rw [List.cons_append] at heq
        injection heq with h1 h2
        exact ih.mpr ⟨ps, suf, h2, hm⟩


lemma optionalRe_iff_spec (s : List Char) :
    optionalRe s = true ↔ specOptionalAnnot s := by
  rw [optionalRe_iff]
  constructor
  · rintro ⟨pre, suf, rfl, hm⟩
    rcases (matchFromHash_iff suf).mp hm with ⟨ws, w, rest, rfl, hws, hw, hb⟩
    exact ⟨pre, ws, w, rest, rfl, hws, hw, hb⟩
  · rintro ⟨pre, ws, w, rest, rfl, hws, hw, hb⟩
    exact ⟨pre, '#' :: (ws ++ (w ++ rest)), rfl,
      (matchFromHash_iff _).mpr ⟨ws, w, rest, rfl, hws, hw, hb⟩⟩

lemma parseLine_is_optional (raw k : List Char) (pv : ParsedVar)
    (h : parseLine true raw = some (k, pv)) : pv.is_optional = optionalRe raw := by
  simp only [parseLine] at h
  by_cases h1 : strip raw = []
  · rw [if_pos h1] at h
    exact absurd h (by simp)
  · rw [if_neg h1] at h
    by_cases h2 : (strip raw).head? = some '#'
    · rw [if_pos h2] at h
      exact absurd h (by simp)
    · rw [if_neg h2] at h
      by_cases h3 : ((if exportKw.isPrefixOf (strip raw) = true
          then List.drop 7 (strip raw) else strip raw).contains '=') = true
      · rw [if_pos h3] at h
        injection h with h'
        have hsnd := congrArg Prod.snd h'
        dsimp only at hsnd
        rw [← hsnd]
        simp
      · rw [if_neg h3] at h
        injection h with h'
        have hsnd := congrArg Prod.snd h'
        dsimp only at hsnd
        rw [← hsnd]
        simp

/-- C6: with annotation detection enabled, a recorded template line is
marked optional exactly when the original untrimmed line contains,
case-insensitively, a `#` followed by optional whitespace and the word
`optional` as a whole word; in particular the comment `# optionally` does
not mark the variable optional. -/
theorem annotation_whole_word :
    (∀ (raw k : List Char) (pv : ParsedVar), parseLine true raw = some (k, pv) →
        (pv.is_optional = true ↔ specOptionalAnnot raw)) ∧
    parse_env_file true (some [("KEY=x  # optionally".toList)]) =
      [(("KEY".toList), ⟨some ("x".toList), false⟩)] := by
  refine ⟨?_, by decide⟩
  intro raw k pv h
  rw [parseLine_is_optional raw k pv h]
  exact optionalRe_iff_spec raw

/-- C6 witness. -/
theorem annotation_whole_word_witness :
    parseLine true ("A=1  # optional".toList) =
        some (("A".toList), (⟨some ("1".toList), true⟩ : ParsedVar)) ∧
    ((⟨some ("1".toList), true⟩ : ParsedVar).is_optional = true ↔
        specOptionalAnnot ("A=1  # optional".toList)) :=
  ⟨by decide,
    annotation_whole_word.1 ("A=1  # optional".toList) ("A".toList)
      ⟨some ("1".toList), true⟩ (by decide)⟩

/-! ### Duplicate keys: last value wins, first-insertion position -/



lemma list_beq_comm (a b : List Char) : (a == b) = (b == a) := by
  by_cases h : a = b
  · subst h
    rfl
  · rw [beq_eq_false_iff_ne.mpr h, beq_eq_false_iff_ne.mpr (Ne.symm h)]

lemma any_map_fst {α β : Type} (f : α → β) (l : List α) (q : β → Bool) :
    (l.map f).any q = l.any (fun a => q (f a)) := by
  induction l with
  | nil => rfl
  | cons a l ih => simp [List.any_cons, ih]

lemma containsKey_eq_keyMem (m : List (List Char × ParsedVar)) (k : List Char) :
    keyMem (m.map (fun p => p.1)) k = containsKey m k := by
  simp only [keyMem, containsKey, any_map_fst]

lemma keys_insertLast (m : List (List Char × ParsedVar)) (k : List Char) (v : ParsedVar) :
    (insertLast m k v).map (fun p => p.1) =
      if containsKey m k then m.map (fun p => p.1)
      else m.map (fun p => p.1) ++ [k] := by
  unfold insertLast
  by_cases hc : containsKey m k = true
  · rw [if_pos hc, if_pos hc, List.map_map]
    apply List.map_congr_left
    intro p _
    by_cases hp : p.1 = k
    · simp [hp]
    · simp [hp]
  · rw [if_neg hc, if_neg hc, List.map_append]
    rfl

lemma lookupVar_cons (p : List Char × ParsedVar) (m : List (List Char × ParsedVar))
    (k : List Char) :
    lookupVar (p :: m) k = if p.1 == k then some p.2 else lookupVar m k := by
  unfold lookupVar
  cases hb : (p.1 == k)
  · simp [List.find?_cons, hb]
  · simp [List.find?_cons, hb]

lemma lookupVar_map_rep (m : List (List Char × ParsedVar)) (k : List Char) (v : ParsedVar)
    (k' : List Char) :
    lookupVar (m.map (fun p => if p.1 == k then (k, v) else p)) k' =
      if k' = k then (if containsKey m k then some v else none)
      else lookupVar m k' := by
  induction m with
  | nil => simp [lookupVar, containsKey]
  | cons p rest ih =>
    by_cases hp : (p.1 == k) = true
    · have hpk : p.1 = k := beq_iff_eq.mp hp
      have hcont : containsKey (p :: rest) k = true := by
        simp [containsKey, hp]
      simp only [List.map_cons, if_pos hp, hcont, lookupVar_cons, ih]
      by_cases hk : k' = k
      · subst hk
        simp [hcont]
      · have : (k == k') = false := beq_eq_false_iff_ne.mpr (Ne.symm hk)
        have hpk' : (p.1 == k') = false := by
          rw [hpk]
          exact this
        simp [this, hpk', hk]
    · have hp' : p.1 ≠ k := by simpa using hp
      have hcont : containsKey (p :: rest) k = containsKey rest k := by
        simp [containsKey, List.any_cons, hp]
      simp only [List.map_cons, if_neg hp, lookupVar_cons, ih, hcont]
      by_cases hk : k' = k
      · subst hk
        have hpk' : (p.1 == k') = false := beq_eq_false_iff_ne.mpr hp'
        simp [hpk']
      · simp [hk]

lemma lookup_insertLast (m : List (List Char × ParsedVar)) (k : List Char) (v : ParsedVar)
    (k' : List Char) :
    lookupVar (insertLast m k v) k' = if k' = k then some v else lookupVar m k' := by
  unfold insertLast
  by_cases hc : containsKey m k = true
  · rw [if_pos hc, lookupVar_map_rep]
    by_cases hk : k' = k
    · simp [hk, hc]
    · simp [hk]
  · rw [if_neg hc]
    unfold lookupVar
    rw [List.find?_append]
    by_cases hk : k' = k
    · subst hk
      have hfind : m.find? (fun p => p.1 == k') = none := by
        rw [List.find?_eq_none]
        intro p hp hbeq
        exact hc (by
          simp only [containsKey, List.any_eq_true]
          exact ⟨p, hp, hbeq⟩)
      rw [hfind]
      simp [List.find?]
    · have hone : List.find? (fun p => p.1 == k') [(k, v)] = none := by
        simp [List.find?, beq_eq_false_iff_ne.mpr (Ne.symm hk)]
      rw [hone, if_neg hk]
      cases m.find? (fun p => p.1 == k') <;> rfl

lemma opt_map_or {α β : Type} (f : α → β) (a b : Option α) :
    (a.or b).map f = (a.map f).or (b.map f) := by
  cases a <;> rfl

lemma opt_or_assoc {α : Type} (a b c : Option α) :
    (a.or b).or c = a.or (b.or c) := by
  cases a <;> rfl

lemma lookup_foldl (entries : List (List Char × ParsedVar)) :
    ∀ (m : List (List Char × ParsedVar)) (k : List Char),
      lookupVar (entries.foldl (fun m kv => insertLast m kv.1 kv.2) m) k =
        ((entries.reverse.find? (fun p => p.1 == k)).map (fun p => p.2)).or
          (lookupVar m k) := by
  induction entries with
  | nil =>
    intro m k
    rfl
  | cons e rest ih =>
    intro m k
    simp only [List.foldl_cons, List.reverse_cons]
    rw [ih, List.find?_append, lookup_insertLast, opt_map_or, opt_or_assoc]
    congr 1
    by_cases hk : k = e.1
    · have hfind : List.find? (fun p => p.1 == k) [e] = some e :=
        List.find?_cons_of_pos _ (by simp [hk])
      simp [hk, hfind]
    · have hfind : List.find? (fun p => p.1 == k) [e] = none := by
        simp [List.find?, beq_eq_false_iff_ne.mpr (fun h => hk h.symm)]
      rw [if_neg hk, hfind]
      rfl

lemma keys_foldl (entries : List (List Char × ParsedVar)) :
    ∀ m : List (List Char × ParsedVar),
      ((entries.foldl (fun m kv => insertLast m kv.1 kv.2) m).map (fun p => p.1)) =
        m.map (fun p => p.1) ++
          dedupFirst ((entries.map (fun p => p.1)).filter
            (fun x => !keyMem (m.map (fun p => p.1)) x)) := by
  induction entries with
  | nil =>
    intro m
    simp [dedupFirst]
  | cons e rest ih =>
    intro m
    simp only [List.foldl_cons, List.map_cons, List.filter_cons]
    rw [ih (insertLast m e.1 e.2), keys_insertLast]
    by_cases hc : containsKey m e.1 = true
    · rw [if_pos hc]
      have hmem : keyMem (m.map (fun p => p.1)) e.1 = true := by
        rw [containsKey_eq_keyMem]
        exact hc
      simp [hmem]
    · rw [if_neg hc]
      have hmem : keyMem (m.map (fun p => p.1)) e.1 = false := by
        rw [containsKey_eq_keyMem]
        simpa using hc
      have hfilters : (rest.map (fun p => p.1)).filter
            (fun x => !keyMem (m.map (fun p => p.1) ++ [e.1]) x) =
          ((rest.map (fun p => p.1)).filter
            (fun x => !keyMem (m.map (fun p => p.1)) x)).filter
              (fun x => !(x == e.1)) := by
        rw [List.filter_filter]
        apply List.filter_congr
        intro x _
        simp only [keyMem, List.any_append, List.any_cons, List.any_nil,
          Bool.or_false, Bool.not_or]
        rw [list_beq_comm e.1 x]
        exact (Bool.and_comm _ _)
      rw [hfilters]
      simp only [hmem, Bool.not_false, if_true]
      simp [dedupFirst, List.append_assoc]

/-- C8: for every file, the parsed mapping sends each name to the value of
its last declaration (the reversed entry list's first hit), while the
iteration order of the names is that of their first declarations
(`dedupFirst` keeps first occurrences). -/
theorem duplicate_keys_last_value_first_position (pa : Bool) (lines : List (List Char)) :
    (parse_env_file pa (some lines)).map (fun p => p.1) =
      dedupFirst ((parseEntries pa lines).map (fun p => p.1)) ∧
    ∀ k : List Char,
      lookupVar (parse_env_file pa (some lines)) k =
        ((parseEntries pa lines).reverse.find? (fun p => p.1 == k)).map
          (fun p => p.2) := by
  constructor
  · unfold parse_env_file
    rw [keys_foldl]
    simp [keyMem]
  · intro k
    unfold parse_env_file
    rw [lookup_foldl]
    have : lookupVar [] k = none := rfl
    rw [this]
    cases ((parseEntries pa lines).reverse.find? (fun p => p.1 == k)).map
        (fun p => p.2) <;> rfl

/-- C8 witness: the file `A=1`, `B=2`, `A=3` keeps `A` in first position
but maps it to `3`. -/
theorem duplicate_keys_last_value_first_position_witness :
    (parse_env_file false (some [("A=1".toList), ("B=2".toList), ("A=3".toList)])).map
        (fun p => p.1) =
      dedupFirst ((parseEntries false
        [("A=1".toList), ("B=2".toList), ("A=3".toList)]).map (fun p => p.1)) ∧
    lookupVar (parse_env_file false
        (some [("A=1".toList), ("B=2".toList), ("A=3".toList)])) ("A".toList) =
      ((parseEntries false
          [("A=1".toList), ("B=2".toList), ("A=3".toList)]).reverse.find?
        (fun p => p.1 == ("A".toList))).map (fun p => p.2) :=
  ⟨(duplicate_keys_last_value_first_position false
      [("A=1".toList), ("B=2".toList), ("A=3".toList)]).1,
   (duplicate_keys_last_value_first_position false
      [("A=1".toList), ("B=2".toList), ("A=3".toList)]).2 ("A".toList)⟩

end DotenvGuard
